import Mathlib

/-!
Shallow embedding of the chordial audio engine core (crate `chordial`),
covering the data model and operations referenced by the verified claims:
`Engine::render`, node id allocation, `Engine::delete_node`,
`NodeUtil::poll_input` / `poll_input_into_buffer`, `NodeInstance::render`
output caching, `ControlValue::render`, `Osc::render`'s per-voice tone,
`Gain::render_effect` / `util::db_to_factor`, and the
`Config` timeline-unit conversions.

Conventions: `f32`/`f64` sample and control values are modelled as `ℚ`
wherever the facts proved only involve exact dyadic arithmetic
(additions and constants such as 0.25, 0.5, which are exact in `f32`),
and as `ℝ` where transcendental functions appear (`sin`, `powf`).
`usize` values are modelled as `ℕ`; the `as usize` cast of a nonnegative
`f64` truncates, i.e. takes the floor.
-/

namespace Chordial

/-- A stereo audio frame, `Frame(f32, f32)` (engine.rs 10). Addition is
componentwise (engine.rs 18-31). -/
structure Frame where
  left : ℚ
  right : ℚ
deriving DecidableEq, Repr

/-- `Frame::ZERO` (engine.rs 50). -/
def Frame.zero : Frame := ⟨0, 0⟩

/-- `Frame::add_assign` / `Frame::add` (engine.rs 18-31). -/
def Frame.add (a b : Frame) : Frame := ⟨a.left + b.left, a.right + b.right⟩

/-- `OutputRef` (node.rs 295-299): a reference to output `output` of node
`node`. -/
structure OutputRef where
  node : Nat
  output : Nat
deriving DecidableEq, Repr

/-- The in-place accumulation pattern
`dest.iter_mut().zip(src).for_each(|(a, b)| *a += *b)` used by
`poll_input_into_buffer` (node.rs 177-183): pairs are added up to the
shorter length, elements of `dest` past `src`'s length are left unchanged,
and `dest`'s length never changes. -/
def addInto (dest src : List Frame) : List Frame :=
  List.zipWith Frame.add dest src ++ dest.drop src.length

/-- `Vec::resize(len, z)` as used by `Buffer::resize` (node.rs 363-369):
keep the first `len` elements, pad with `z` if the vector grows. -/
def resizeList (z : α) (l : List α) (n : Nat) : List α :=
  l.take n ++ List.replicate (n - l.length) z

/-- Model of the engine state as consumed by `Engine::render`
(engine.rs 150-183).  `sinkRefs` is the fan-in source list of the sink
node's single audio input (`nodes[0].inputs[0].0`); `nodeOut r n` abstracts
`Engine::poll_node_output(r, n)` (engine.rs 288-315): the contents of the
referenced upstream output buffer observed by the pulling node. -/
structure EngineM where
  playing : Bool
  position : Nat
  sinkRefs : List OutputRef
  nodeOut : OutputRef → Nat → List Frame

/-- `Sink::render` (node/io.rs 18-21), which is exactly
`poll_input_into_buffer(0, buffer)` (node.rs 154-204): every fan-in source
of input 0 is polled for `buffer.len()` frames and accumulated into the
caller's buffer.  The destination is never zero-filled first. -/
def sinkRender (e : EngineM) (buffer : List Frame) : List Frame :=
  e.sinkRefs.foldl (fun buf r => addInto buf (e.nodeOut r buf.length)) buffer

/-- Result of one `Engine::render` call: the engine state afterwards, the
final contents of the caller's buffer, and whether any node render ran
during the call. -/
structure RenderResult where
  engine : EngineM
  buffer : List Frame
  renderedAny : Bool

/-- `Engine::render` (engine.rs 150-183).  When `playing` is false the
buffer is zero-filled and the function returns early: `position` is not
advanced and no node's render is invoked.  Otherwise the sink node is
rendered into the caller's buffer, every node is advanced and its buffers
cleared, and `position` advances by `buffer.len()`. -/
def EngineM.render (e : EngineM) (buffer : List Frame) : RenderResult :=
  if e.playing then
    { engine := { e with position := e.position + buffer.length }
      buffer := sinkRender e buffer
      renderedAny := true }
  else
    { engine := e
      buffer := List.replicate buffer.length Frame.zero
      renderedAny := false }

/-- `NodeInstance::render` (node.rs 266-276): under the output buffer's
write lock, if the cached output already holds at least `samples` elements
the call returns at once without invoking the node's `render`; otherwise
the cache is resized to `samples` (padding with the zero element `z`) and
the node's `render` fills it.  `fill` abstracts `self.node.render` acting
on the resized buffer; the returned flag records whether `fill` ran. -/
def instRender (z : α) (fill : List α → List α) (cache : List α)
    (samples : Nat) : List α × Bool :=
  if samples ≤ cache.length then (cache, false)
  else (fill (resizeList z cache samples), true)

/-- A sequence of `poll_node_output` pulls against the same (node, output)
pair within one render cycle, each going through `NodeInstance::render`
(engine.rs 288-315, node.rs 266-276).  Returns the final cache contents
and the number of times the node's `render` was invoked. -/
def pollSequence (z : α) (fill : List α → List α) :
    List α → List Nat → List α × Nat
  | cache, [] => (cache, 0)
  | cache, n :: rest =>
    let step := instRender z fill cache n
    let next := pollSequence z fill step.1 rest
    (next.1, (if step.2 then 1 else 0) + next.2)

/-- One fan-in accumulation step of `poll_input` for a Control input
(node.rs 108-146): if the scratch buffer's length differs from the request
length it is resized (padding with `0.0`), then the polled source buffer is
added element-wise (`access.iter_mut().zip(buf)`), leaving any elements of
the scratch past the source's length unchanged. -/
def controlFanInStep (access buf : List ℚ) (n : Nat) : List ℚ :=
  let acc := if access.length ≠ n then resizeList 0 access n else access
  List.zipWith (· + ·) acc buf ++ acc.drop buf.length

/-- `NodeUtil::poll_input` (node.rs 92-152) for a Control-kind input with
two or more sources: each source is polled in order and summed into the
per-input scratch buffer, which the engine cleared (to length 0) after the
previous render cycle.  `poll r n` abstracts
`engine.poll_node_output(r, n)`. -/
def pollInputControlMulti (poll : OutputRef → Nat → List ℚ)
    (refs : List OutputRef) (scratch : List ℚ) (n : Nat) : List ℚ :=
  refs.foldl (fun access r => controlFanInStep access (poll r n) n) scratch

/-- `ControlValue::render` (node.rs 1052-1064) as observed through a first
`NodeInstance::render` of a cycle: the output buffer is resized to the
request length and then `control.fill(self.value)` fills every element
with the node's `value` parameter. -/
def controlValuePoll (value : ℚ) (n : Nat) : List ℚ := List.replicate n value

/-- The state relevant to node id allocation (engine.rs 74-76):
the set of keys of the `nodes` map, and the persistent `node_counter`. -/
structure AllocState where
  used : List Nat
  counter : Nat
deriving DecidableEq, Repr

/-- The probe loop of `Engine::add_node` / `add_node_dyn`
(engine.rs 228-242): `while nodes.contains_key(&counter) counter += 1`.
Written with fuel; `used.foldr max 0 + 2` steps always escape the occupied
ids. -/
def probeAux (used : List Nat) : Nat → Nat → Nat
  | 0, c => c
  | fuel + 1, c => if c ∈ used then probeAux used fuel (c + 1) else c

/-- The id the probe loop lands on when started at `c`. -/
def probe (used : List Nat) (c : Nat) : Nat :=
  probeAux used (used.foldr max 0 + 2) c

/-- `Engine::add_node` (engine.rs 228-234): advance the counter past
occupied ids, insert the node at the resulting id and return it.  The
counter is left equal to the assigned id. -/
def addNode (s : AllocState) : AllocState × Nat :=
  let id := probe s.used s.counter
  ({ used := id :: s.used, counter := id }, id)

/-- `Engine::delete_node`'s effect on the id map (engine.rs 260-270): the
key is removed; the counter is not touched. -/
def deleteNodeId (s : AllocState) (n : Nat) : AllocState :=
  { s with used := s.used.erase n }

/-- `Engine::delete_node` (engine.rs 260-270) on the node map, modelled as
an association list from id to the node's input fan-in lists.  If `n` is
absent the call returns at once; otherwise the entry is removed and every
remaining input list drops each `OutputRef` whose `node` field equals `n`
(`input.0.retain`). -/
def deleteNode (nodes : List (Nat × List (List OutputRef))) (n : Nat) :
    List (Nat × List (List OutputRef)) :=
  if nodes.any (fun kv => kv.1 == n) then
    (nodes.filter (fun kv => kv.1 != n)).map
      (fun kv => (kv.1, kv.2.map (fun inp => inp.filter (fun r => r.node != n))))
  else
    nodes

/-- `Config::beats_per_sec` (engine.rs 742-744). -/
def beatsPerSec (bpm : ℚ) : ℚ := bpm / 60

/-- `Config::secs_per_beat` (engine.rs 738-740). -/
def secsPerBeat (bpm : ℚ) : ℚ := 1 / beatsPerSec bpm

/-- `STEP_DIVISIONS * BEAT_DIVISIONS` (engine.rs 6-7): timeline units per
beat. -/
def unitsPerBeat : ℚ := 24 * 4

/-- `Config::tl_units_to_frames` (engine.rs 746-749): `f64` arithmetic
modelled exactly over `ℚ`; the `as usize` cast truncates the nonnegative
result, i.e. takes the floor. -/
def tlUnitsToFrames (sampleRate : ℕ) (bpm : ℚ) (u : ℕ) : ℕ :=
  (⌊(u : ℚ) / unitsPerBeat * secsPerBeat bpm * (sampleRate : ℚ)⌋).toNat

/-- `Config::frames_to_tl_units` (engine.rs 751-754). -/
def framesToTlUnits (sampleRate : ℕ) (bpm : ℚ) (f : ℕ) : ℕ :=
  (⌊(f : ℚ) / (sampleRate : ℚ) / secsPerBeat bpm * unitsPerBeat⌋).toNat

/-- The length of one timeline tick in frames, as an exact rational:
`secs_per_beat * sample_rate / 96`. -/
def tickFrames (sampleRate : ℕ) (bpm : ℚ) : ℚ :=
  secsPerBeat bpm * (sampleRate : ℚ) / unitsPerBeat

/-- `util::midi_to_freq_with_tuning` (util.rs 15-17):
`2^((note - 69) / 12) * a4`. -/
noncomputable def midi_to_freq_with_tuning (note : ℕ) (a4 : ℝ) : ℝ :=
  (2 : ℝ) ^ (((note : ℝ) - 69) / 12) * a4

/-- `util::midi_to_freq` (util.rs 19-21): the tuning is hard-coded to
`440.0`. -/
noncomputable def midi_to_freq (note : ℕ) : ℝ :=
  midi_to_freq_with_tuning note 440

/-- `Config::midi_note_to_freq` (engine.rs 61-63): the tuning-aware
frequency map, scaling with the config's `tuning` field. -/
noncomputable def configMidiNoteToFreq (tuning : ℝ) (note : ℕ) : ℝ :=
  (2 : ℝ) ^ (((note : ℝ) - 69) / 12) * tuning

/-- The per-voice, per-frame contribution of `Osc::render`
(node/osc.rs 53-74): `sin(TAU * time * rate) * vel` with
`time = progress / sample_rate`, `rate = util::midi_to_freq(note.note)`
and `vel = velocity / 127`.  The engine config is in scope in the source
but its `tuning` field is not consulted. -/
noncomputable def oscVoiceSample (sampleRate : ℕ) (progress : ℕ)
    (note : ℕ) (velocity : ℕ) : ℝ :=
  Real.sin (2 * Real.pi * ((progress : ℝ) / (sampleRate : ℝ)) *
    midi_to_freq note) * ((velocity : ℝ) / 127)

/-- `util::db_to_factor` (util.rs 3-5): `10.0f32.powf(db / 10.0)`. -/
noncomputable def db_to_factor (db : ℝ) : ℝ := (10 : ℝ) ^ (db / 10)

/-- `Gain::render_effect` (node/effect.rs 71-81): compute
`fac = db_to_factor(gain)` once, then multiply both channels of every
frame in the buffer by `fac`. -/
noncomputable def gainRenderEffect (gain : ℝ) (buffer : List (ℝ × ℝ)) :
    List (ℝ × ℝ) :=
  buffer.map (fun f => (f.1 * db_to_factor gain, f.2 * db_to_factor gain))

/-! Helper lemmas. -/

theorem addInto_length (dest src : List Frame) :
    (addInto dest src).length = dest.length := by
  simp [addInto]
  omega

theorem addInto_of_length_eq (dest src : List Frame)
    (h : src.length = dest.length) :
    addInto dest src = List.zipWith Frame.add dest src := by
  simp [addInto, h, List.drop_length]

theorem zipWith_replicate_same (f : α → β → γ) (a : α) (b : β) :
    ∀ n, List.zipWith f (List.replicate n a) (List.replicate n b)
      = List.replicate n (f a b) := by
  intro n
  induction n with
  | zero => rfl
  | succ k ih => simp [List.replicate_succ, ih]

theorem resizeList_length (z : α) (l : List α) (n : Nat) :
    (resizeList z l n).length = n := by
  simp [resizeList]
  omega

theorem pollSequence_no_render (z : α) (fill : List α → List α) :
    ∀ (reqs : List Nat) (cache : List α),
      (∀ m ∈ reqs, m ≤ cache.length) →
      pollSequence z fill cache reqs = (cache, 0) := by
  intro reqs
  induction reqs with
  | nil => intro cache _; rfl
  | cons m rest ih =>
    intro cache h
    have hm : m ≤ cache.length := h m (List.mem_cons_self m rest)
    simp only [pollSequence, instRender, if_pos hm]
    rw [ih cache (fun k hk => h k (List.mem_cons_of_mem m hk))]
    simp

theorem controlFanInStep_nil_replicate (w : ℚ) (n : Nat) :
    controlFanInStep [] (List.replicate n w) n = List.replicate n w := by
  cases n with
  | zero => rfl
  | succ k =>
    simp [controlFanInStep, resizeList, zipWith_replicate_same,
      List.drop_replicate]

theorem controlFanInStep_replicate (v w : ℚ) (n : Nat) :
    controlFanInStep (List.replicate n v) (List.replicate n w) n
      = List.replicate n (v + w) := by
  simp [controlFanInStep, zipWith_replicate_same, List.drop_replicate]

theorem mem_le_foldr_max {l : List Nat} {x : Nat} (h : x ∈ l) :
    x ≤ l.foldr max 0 := by
  induction l with
  | nil => cases h
  | cons a t ih =>
    rcases List.mem_cons.mp h with rfl | h
    · exact le_max_left _ _
    · exact le_trans (ih h) (le_max_right _ _)

theorem probeAux_ge (used : List Nat) :
    ∀ fuel c, c ≤ probeAux used fuel c := by
  intro fuel
  induction fuel with
  | zero => intro c; exact le_refl c
  | succ f ih =>
    intro c
    by_cases h : c ∈ used
    · simp only [probeAux, if_pos h]
      exact le_trans (Nat.le_succ c) (ih (c + 1))
    · simp only [probeAux, if_neg h]
      exact le_refl c

theorem probeAux_not_mem (used : List Nat) :
    ∀ fuel c, used.foldr max 0 < c + fuel → probeAux used fuel c ∉ used := by
  intro fuel
  induction fuel with
  | zero =>
    intro c h hmem
    simp only [probeAux] at hmem
    exact absurd (mem_le_foldr_max hmem) (by omega)
  | succ f ih =>
    intro c h
    by_cases hc : c ∈ used
    · simp only [probeAux, if_pos hc]
      exact ih (c + 1) (by omega)
    · simp only [probeAux, if_neg hc]
      exact hc

theorem probeAux_min (used : List Nat) :
    ∀ fuel c k, c ≤ k → k < probeAux used fuel c → k ∈ used := by
  intro fuel
  induction fuel with
  | zero =>
    intro c k h1 h2
    simp only [probeAux] at h2
    omega
  | succ f ih =>
    intro c k h1 h2
    by_cases hc : c ∈ used
    · simp only [probeAux, if_pos hc] at h2
      rcases eq_or_lt_of_le h1 with rfl | hlt
      · exact hc
      · exact ih (c + 1) k hlt h2
    · simp only [probeAux, if_neg hc] at h2
      omega

theorem probe_not_mem (used : List Nat) (c : Nat) : probe used c ∉ used :=
  probeAux_not_mem used _ c (by omega)

theorem probe_ge (used : List Nat) (c : Nat) : c ≤ probe used c :=
  probeAux_ge used _ c

theorem probe_min (used : List Nat) (c k : Nat) (h1 : c ≤ k)
    (h2 : k < probe used c) : k ∈ used :=
  probeAux_min used _ c k h1 h2

/-! Claim theorems. -/

/-- Claim C3, counterexample: on a fresh engine (sink at id 0, counter 0),
adding two nodes assigns ids 1 and 2; after deleting node 1 — an id smaller
than every currently unused id — the next `add_node` assigns id 3, not the
freed id 1: the probe resumes from the persistent counter, which deletion
never resets, and does not start from 0. -/
theorem add_node_counterexample :
    (addNode (deleteNodeId (addNode (addNode ⟨[0], 0⟩).1).1 1)).2 = 3 ∧
    1 ∉ (deleteNodeId (addNode (addNode ⟨[0], 0⟩).1).1 1).used ∧
    0 ∈ (deleteNodeId (addNode (addNode ⟨[0], 0⟩).1).1 1).used := by
  decide

/-- Claim C3 (amended): the id assigned by `add_node` is the smallest id
not currently occupied that is at or above the persistent `node_counter`
(which is left equal to the assigned id and is never reset by deletions):
the assigned id is unoccupied, at least the counter, and every id between
the counter and it is occupied.  Ids freed below the counter are not
reused. -/
theorem add_node_id_spec (s : AllocState) (k : Nat)
    (hk1 : s.counter ≤ k) (hk2 : k < (addNode s).2) :
    (addNode s).2 ∉ s.used ∧ s.counter ≤ (addNode s).2 ∧ k ∈ s.used ∧
    (addNode s).1.counter = (addNode s).2 ∧
    (addNode s).1.used = (addNode s).2 :: s.used :=
  ⟨probe_not_mem _ _, probe_ge _ _, probe_min _ _ _ hk1 hk2, rfl, rfl⟩

/-- Claim C3 (amended), witness: with occupied ids 0 and 2 and counter 0,
the assigned id is 1; id 0 lies between the counter and it and is indeed
occupied. -/
theorem add_node_id_spec_witness :
    (addNode ⟨[0, 2], 0⟩).2 ∉ [0, 2] ∧
    (0 : Nat) ≤ (addNode ⟨[0, 2], 0⟩).2 ∧ (0 : Nat) ∈ [0, 2] ∧
    (addNode ⟨[0, 2], 0⟩).1.counter = (addNode ⟨[0, 2], 0⟩).2 ∧
    (addNode ⟨[0, 2], 0⟩).1.used = (addNode ⟨[0, 2], 0⟩).2 :: [0, 2] :=
  add_node_id_spec ⟨[0, 2], 0⟩ 0 (by decide) (by decide)

/-- Claim C8, counterexample: `delete_node` returns early when the id is
not in the node map, so a dangling `OutputRef` to that id survives: with a
single node 0 whose input refers to the absent id 5, `delete_node(5)`
leaves the reference in place. -/
theorem delete_node_counterexample :
    deleteNode [(0, [[(⟨5, 0⟩ : OutputRef)]])] 5 = [(0, [[⟨5, 0⟩]])] ∧
    ¬ (∀ kv ∈ deleteNode [(0, [[(⟨5, 0⟩ : OutputRef)]])] 5,
        ∀ inp ∈ kv.2, ∀ r ∈ inp, r.node ≠ 5) := by
  decide

/-- Claim C8 (amended): when the deleted id `n` is present in the node map,
after `delete_node(n)` the map no longer contains `n`, no input fan-in list
of any remaining node contains an `OutputRef` whose `node` field equals
`n`, and every remaining node keeps its input lists with exactly the
references to `n` removed (all other references retained, in order).  When
`n` is absent the call is a no-op and dangling references to `n`, if any,
survive. -/
theorem delete_node_scrubs (nodes : List (Nat × List (List OutputRef)))
    (n : Nat) (hmem : nodes.any (fun kv => kv.1 == n) = true) :
    (∀ kv ∈ deleteNode nodes n, kv.1 ≠ n) ∧
    (∀ kv ∈ deleteNode nodes n, ∀ inp ∈ kv.2, ∀ r ∈ inp, r.node ≠ n) ∧
    (∀ kv ∈ nodes, kv.1 ≠ n →
      (kv.1, kv.2.map (fun inp => inp.filter (fun r => r.node != n)))
        ∈ deleteNode nodes n) := by
  unfold deleteNode
  rw [if_pos hmem]
  refine ⟨?_, ?_, ?_⟩
  · intro kv hkv
    rcases List.mem_map.mp hkv with ⟨kv', hkv', rfl⟩
    have h := (List.mem_filter.mp hkv').2
    simpa using h
  · intro kv hkv inp hinp r hr
    rcases List.mem_map.mp hkv with ⟨kv', hkv', rfl⟩
    rcases List.mem_map.mp hinp with ⟨inp', hinp', rfl⟩
    have h := (List.mem_filter.mp hr).2
    simpa using h
  · intro kv hkv hne
    refine List.mem_map.mpr ⟨kv, List.mem_filter.mpr ⟨hkv, ?_⟩, rfl⟩
    simpa using hne

/-- Claim C8 (amended), witness: deleting the present node 2 from a
two-node map scrubs the reference to 2 from node 0's input while keeping
the reference to 5. -/
theorem delete_node_scrubs_witness :
    (∀ kv ∈ deleteNode
        [(0, [[(⟨5, 0⟩ : OutputRef), ⟨2, 1⟩]]), (2, [[]])] 2, kv.1 ≠ 2) ∧
    (∀ kv ∈ deleteNode
        [(0, [[(⟨5, 0⟩ : OutputRef), ⟨2, 1⟩]]), (2, [[]])] 2,
      ∀ inp ∈ kv.2, ∀ r ∈ inp, r.node ≠ 2) ∧
    (∀ kv ∈ [(0, [[(⟨5, 0⟩ : OutputRef), ⟨2, 1⟩]]), (2, [[]])], kv.1 ≠ 2 →
      (kv.1, kv.2.map (fun inp => inp.filter (fun r => r.node != 2)))
        ∈ deleteNode [(0, [[(⟨5, 0⟩ : OutputRef), ⟨2, 1⟩]]), (2, [[]])] 2) :=
  delete_node_scrubs [(0, [[⟨5, 0⟩, ⟨2, 1⟩]]), (2, [[]])] 2 (by decide)

/-- Claim C5: within one render cycle, any number of pulls of the same
(node, output) pair with the same requested buffer length invoke the
underlying node's `render` at most once — the first pull resizes and fills
the cached output buffer and every later pull finds
`buf.len() >= samples` and short-circuits. -/
theorem render_at_most_once_per_cycle (z : α) (fill : List α → List α)
    (hfill : ∀ l, (fill l).length = l.length) (n : Nat) (reqs : List Nat)
    (hreqs : ∀ m ∈ reqs, m = n) :
    (pollSequence z fill [] reqs).2 ≤ 1 := by
  cases reqs with
  | nil => simp [pollSequence]
  | cons m rest =>
    have hm : m = n := hreqs m (List.mem_cons_self m rest)
    subst hm
    have hrest : ∀ k ∈ rest, k = m :=
      fun k hk => hreqs k (List.mem_cons_of_mem m hk)
    by_cases hz : m ≤ (List.nil (α := α)).length
    · simp only [pollSequence, instRender, if_pos hz]
      rw [pollSequence_no_render z fill rest []
        (fun k hk => (hrest k hk) ▸ hz)]
      simp
    · simp only [pollSequence, instRender, if_neg hz]
      have hlen : (fill (resizeList z [] m)).length = m := by
        rw [hfill, resizeList_length]
      rw [pollSequence_no_render z fill rest _
        (fun k hk => by rw [hrest k hk, hlen])]
      simp

/-- Claim C5, witness: two consecutive pulls of length 2 starting from a
cleared cache cause at most one render. -/
theorem render_at_most_once_per_cycle_witness :
    (pollSequence (0 : ℚ) (fun l => l) [] [2, 2]).2 ≤ 1 :=
  render_at_most_once_per_cycle 0 (fun l => l) (fun _ => rfl) 2 [2, 2]
    (by decide)

/-- Claim C4: polling a Control input fed by two ControlValue sources whose
`value` parameters are 0.25 and 0.5 yields, for any request length `n`, a
buffer of length `n` whose every element is 0.75: the fan-in is summed
element-wise into the zeroed per-input scratch buffer. -/
theorem fan_in_control_sum (n : Nat) (r1 r2 : OutputRef)
    (poll : OutputRef → Nat → List ℚ)
    (h1 : poll r1 n = controlValuePoll (1 / 4) n)
    (h2 : poll r2 n = controlValuePoll (1 / 2) n) :
    pollInputControlMulti poll [r1, r2] [] n = List.replicate n (3 / 4) := by
  simp only [pollInputControlMulti, List.foldl, h1, h2, controlValuePoll]
  rw [controlFanInStep_nil_replicate, controlFanInStep_replicate]
  norm_num

/-- Claim C4, witness: concrete sources at node ids 1 and 2, request
length 3. -/
theorem fan_in_control_sum_witness :
    pollInputControlMulti
      (fun r k => if r.node == 1 then controlValuePoll (1 / 4) k
                  else controlValuePoll (1 / 2) k)
      [⟨1, 0⟩, ⟨2, 0⟩] [] 3 = List.replicate 3 (3 / 4) :=
  fan_in_control_sum 3 ⟨1, 0⟩ ⟨2, 0⟩ _ rfl rfl

/-- Claim C2, counterexample: on an engine with `playing == false` at
position 0, rendering a one-frame buffer leaves `position` at 0, not 1 —
`Engine::render` returns early before reaching `self.position += buffer.len()`. -/
theorem render_position_counterexample :
    ¬ ((EngineM.render ⟨false, 0, [], fun _ _ => []⟩ [Frame.zero]).engine.position
        = 0 + 1) := by
  simp [EngineM.render]

/-- Claim C2 (amended): after `Engine::render(buf)` the transport position
equals its prior value plus `buf.len()` when `playing` is true, and is
unchanged when `playing` is false (the early silence return does not
advance the transport). -/
theorem render_position_advance (e : EngineM) (buf : List Frame) :
    (e.render buf).engine.position
      = if e.playing then e.position + buf.length else e.position := by
  by_cases h : e.playing <;> simp [EngineM.render, h]

/-- Claim C7: when `playing` is false, `Engine::render` fills the buffer
with zero frames and returns without invoking any node's render. -/
theorem render_not_playing_silence (e : EngineM) (buf : List Frame)
    (h : e.playing = false) :
    (e.render buf).buffer = List.replicate buf.length Frame.zero ∧
    (e.render buf).renderedAny = false := by
  simp [EngineM.render, h]

/-- Claim C7, witness: a concrete stopped engine renders a two-frame buffer
to silence without rendering a node. -/
theorem render_not_playing_silence_witness :
    (EngineM.render ⟨false, 7, [⟨1, 0⟩], fun _ n => List.replicate n ⟨1, 1⟩⟩
        [⟨2, 3⟩, ⟨4, 5⟩]).buffer
      = List.replicate 2 Frame.zero ∧
    (EngineM.render ⟨false, 7, [⟨1, 0⟩], fun _ n => List.replicate n ⟨1, 1⟩⟩
        [⟨2, 3⟩, ⟨4, 5⟩]).renderedAny = false :=
  render_not_playing_silence _ _ rfl

/-- Claim C6: with `playing == true` and the sink's input connected to a
single source, `Engine::render` accumulates the polled graph output into
the caller-provided buffer instead of overwriting it: the result is the
element-wise sum of the buffer's prior contents and the upstream output
(`poll_input_into_buffer` never zero-fills its destination). -/
theorem render_accumulates_into_buffer (e : EngineM) (buf : List Frame)
    (r : OutputRef) (hp : e.playing = true) (hr : e.sinkRefs = [r])
    (hl : (e.nodeOut r buf.length).length = buf.length) :
    (e.render buf).buffer
      = List.zipWith Frame.add buf (e.nodeOut r buf.length) := by
  simp only [EngineM.render, hp, if_true]
  show sinkRender e buf = _
  rw [sinkRender, hr]
  simpa using addInto_of_length_eq buf (e.nodeOut r buf.length) hl

/-- Claim C6, witness: a concrete playing engine with a nonzero prior
buffer; the rendered result is the element-wise sum. -/
theorem render_accumulates_into_buffer_witness :
    (EngineM.render ⟨true, 0, [⟨1, 0⟩], fun _ n => List.replicate n ⟨1, 1⟩⟩
        [⟨2, 3⟩, ⟨4, 5⟩]).buffer
      = List.zipWith Frame.add [⟨2, 3⟩, ⟨4, 5⟩] (List.replicate 2 ⟨1, 1⟩) :=
  render_accumulates_into_buffer
    ⟨true, 0, [⟨1, 0⟩], fun _ n => List.replicate n ⟨1, 1⟩⟩
    [⟨2, 3⟩, ⟨4, 5⟩] ⟨1, 0⟩ rfl rfl rfl

/-- Claim C1, counterexample: the claim predicts that with the config's
tuning set to 880 Hz the voice for MIDI note 69 sounds at
880 * 2^0 = 880 Hz, but the rate `Osc::render` passes to the sine is
`util::midi_to_freq(69) = 440` Hz: the config's tuning never reaches the
oscillator. -/
theorem osc_freq_counterexample :
    midi_to_freq 69 ≠ configMidiNoteToFreq 880 69 := by
  unfold midi_to_freq midi_to_freq_with_tuning configMidiNoteToFreq
  have h : (((69 : ℕ) : ℝ) - 69) / 12 = 0 := by norm_num
  rw [h, Real.rpow_zero]
  norm_num

/-- Claim C1 (amended): the sine tone `Osc::render` produces for a voice
with MIDI note `n` has frequency `440 * 2^((n-69)/12)` regardless of the
engine config's tuning — the voice sample is
`sin(2π * (progress / sample_rate) * (440 * 2^((n-69)/12))) * vel/127` —
and the spec's tuning-aware map `Config::midi_note_to_freq` differs from
the frequency Osc actually uses by the factor `tuning / 440`. -/
theorem osc_voice_freq_fixed (sr progress note vel : ℕ) (tuning : ℝ) :
    oscVoiceSample sr progress note vel
      = Real.sin (2 * Real.pi * ((progress : ℝ) / (sr : ℝ)) *
          ((440 : ℝ) * (2 : ℝ) ^ (((note : ℝ) - 69) / 12)))
        * ((vel : ℝ) / 127) ∧
    configMidiNoteToFreq tuning note = tuning / 440 * midi_to_freq note := by
  constructor
  · unfold oscVoiceSample
    have h : midi_to_freq note
        = (440 : ℝ) * (2 : ℝ) ^ (((note : ℝ) - 69) / 12) := by
      unfold midi_to_freq midi_to_freq_with_tuning
      ring
    rw [h]
  · unfold configMidiNoteToFreq midi_to_freq midi_to_freq_with_tuning
    field_simp
    ring

/-- Claim C9: `Gain::render_effect` multiplies both channels of every frame
by `db_to_factor(gain) = 10^(gain/10)` — the exponent divides by 10, not by
the conventional 20. -/
theorem gain_factor_db_over_10 (g : ℝ) (buf : List (ℝ × ℝ)) :
    gainRenderEffect g buf
      = buf.map (fun f => (f.1 * (10 : ℝ) ^ (g / 10),
                           f.2 * (10 : ℝ) ^ (g / 10))) := rfl

/-! Timeline-conversion lemmas and claim C10. -/

theorem secsPerBeat_pos {bpm : ℚ} (h : 0 < bpm) : 0 < secsPerBeat bpm := by
  unfold secsPerBeat beatsPerSec
  positivity

theorem tickFrames_pos {sr : ℕ} {bpm : ℚ} (hsr : 0 < sr) (hbpm : 0 < bpm) :
    0 < tickFrames sr bpm := by
  unfold tickFrames
  have h1 := secsPerBeat_pos hbpm
  have h2 : (0 : ℚ) < (sr : ℚ) := by exact_mod_cast hsr
  have h3 : (0 : ℚ) < unitsPerBeat := by norm_num [unitsPerBeat]
  exact div_pos (mul_pos h1 h2) h3

theorem framesToTl_arg (sr : ℕ) (bpm : ℚ) (hsr : (sr : ℚ) ≠ 0)
    (hbpm : bpm ≠ 0) (f : ℚ) :
    f / (sr : ℚ) / secsPerBeat bpm * unitsPerBeat
      = f / tickFrames sr bpm := by
  unfold tickFrames secsPerBeat beatsPerSec unitsPerBeat
  field_simp
  ring

theorem tlToFrames_arg (sr : ℕ) (bpm : ℚ) (u : ℚ) :
    u / unitsPerBeat * secsPerBeat bpm * (sr : ℚ)
      = u * tickFrames sr bpm := by
  unfold tickFrames
  ring

theorem floor_toNat_cast {x : ℚ} (hx : 0 ≤ x) :
    ((⌊x⌋.toNat : ℕ) : ℚ) = (⌊x⌋ : ℚ) := by
  have h : 0 ≤ ⌊x⌋ := Int.floor_nonneg.mpr hx
  exact_mod_cast Int.toNat_of_nonneg h

/-- Claim C10, counterexample: at sample_rate 120 and bpm 100 one timeline
tick is 0.75 frames; the round trip of `frames_to_tl_units` followed by
`tl_units_to_frames` maps frame count 1 to 0, an error of one full frame,
which exceeds one tick's worth of frames. -/
theorem tl_roundtrip_counterexample :
    tlUnitsToFrames 120 100 (framesToTlUnits 120 100 1) = 0 ∧
    tickFrames 120 100
      < (1 : ℚ) - (tlUnitsToFrames 120 100 (framesToTlUnits 120 100 1) : ℚ)
    := by
  have h1 : framesToTlUnits 120 100 1 = 1 := by
    unfold framesToTlUnits secsPerBeat beatsPerSec unitsPerBeat
    norm_num
  have h2 : tlUnitsToFrames 120 100 1 = 0 := by
    unfold tlUnitsToFrames secsPerBeat beatsPerSec unitsPerBeat
    norm_num
  refine ⟨by rw [h1, h2], ?_⟩
  rw [h1, h2]
  norm_num [tickFrames, secsPerBeat, beatsPerSec, unitsPerBeat]

/-- Claim C10 (amended): for positive sample rate and bpm, (a) if a frame
count `f` lies exactly on a timeline tick boundary — `f` equals `u` ticks'
worth of frames exactly, with no truncation — then
`tl_units_to_frames (frames_to_tl_units f) = f`; and (b) for every frame
count `f` the round trip never overshoots and its error is less than one
tick's worth of frames plus one frame (it is not bounded by one tick
alone). -/
theorem tl_roundtrip_spec (sr : ℕ) (bpm : ℚ) (hsr : 0 < sr)
    (hbpm : 0 < bpm) :
    (∀ u f : ℕ, (f : ℚ) = (u : ℚ) * tickFrames sr bpm →
      tlUnitsToFrames sr bpm (framesToTlUnits sr bpm f) = f) ∧
    (∀ f : ℕ, tlUnitsToFrames sr bpm (framesToTlUnits sr bpm f) ≤ f ∧
      (f : ℚ) - (tlUnitsToFrames sr bpm (framesToTlUnits sr bpm f) : ℚ)
        < tickFrames sr bpm + 1) := by
  have hapos : 0 < tickFrames sr bpm := tickFrames_pos hsr hbpm
  have hane : tickFrames sr bpm ≠ 0 := ne_of_gt hapos
  have hsrq : (sr : ℚ) ≠ 0 := by
    have : (0 : ℚ) < (sr : ℚ) := by exact_mod_cast hsr
    exact ne_of_gt this
  have hbpmne : bpm ≠ 0 := ne_of_gt hbpm
  constructor
  · intro u f hf
    have harg : (f : ℚ) / (sr : ℚ) / secsPerBeat bpm * unitsPerBeat
        = ((u : ℕ) : ℚ) := by
      rw [framesToTl_arg sr bpm hsrq hbpmne, hf,
        mul_div_cancel_right₀ _ hane]
    rw [framesToTlUnits, harg, Int.floor_natCast]
    have htn : (u : ℤ).toNat = u := Int.toNat_natCast u
    rw [htn, tlUnitsToFrames, tlToFrames_arg, ← hf, Int.floor_natCast]
    exact Int.toNat_natCast f
  · intro f
    have hx0 : (0 : ℚ) ≤ (f : ℚ) / tickFrames sr bpm :=
      div_nonneg (Nat.cast_nonneg f) (le_of_lt hapos)
    have hTeq : ((framesToTlUnits sr bpm f : ℕ) : ℚ)
        = (⌊(f : ℚ) / tickFrames sr bpm⌋ : ℚ) := by
      rw [framesToTlUnits, framesToTl_arg sr bpm hsrq hbpmne]
      exact floor_toNat_cast hx0
    have ht1 : ((framesToTlUnits sr bpm f : ℕ) : ℚ)
        ≤ (f : ℚ) / tickFrames sr bpm := by
      rw [hTeq]; exact Int.floor_le _
    have ht2 : (f : ℚ) / tickFrames sr bpm
        < ((framesToTlUnits sr bpm f : ℕ) : ℚ) + 1 := by
      rw [hTeq]; exact Int.lt_floor_add_one _
    have hta0 : (0 : ℚ)
        ≤ ((framesToTlUnits sr bpm f : ℕ) : ℚ) * tickFrames sr bpm :=
      mul_nonneg (Nat.cast_nonneg _) (le_of_lt hapos)
    have hReq : ((tlUnitsToFrames sr bpm (framesToTlUnits sr bpm f) : ℕ) : ℚ)
        = (⌊((framesToTlUnits sr bpm f : ℕ) : ℚ) * tickFrames sr bpm⌋ : ℚ)
        := by
      rw [tlUnitsToFrames, tlToFrames_arg]
      exact floor_toNat_cast hta0
    have hr1 : ((tlUnitsToFrames sr bpm (framesToTlUnits sr bpm f) : ℕ) : ℚ)
        ≤ ((framesToTlUnits sr bpm f : ℕ) : ℚ) * tickFrames sr bpm := by
      rw [hReq]; exact Int.floor_le _
    have hr2 : ((framesToTlUnits sr bpm f : ℕ) : ℚ) * tickFrames sr bpm - 1
        < ((tlUnitsToFrames sr bpm (framesToTlUnits sr bpm f) : ℕ) : ℚ) := by
      rw [hReq]; exact Int.sub_one_lt_floor _
    have hfa : (f : ℚ) / tickFrames sr bpm * tickFrames sr bpm = (f : ℚ) :=
      div_mul_cancel₀ _ hane
    have hub : ((framesToTlUnits sr bpm f : ℕ) : ℚ) * tickFrames sr bpm
        ≤ (f : ℚ) := by
      calc ((framesToTlUnits sr bpm f : ℕ) : ℚ) * tickFrames sr bpm
          ≤ (f : ℚ) / tickFrames sr bpm * tickFrames sr bpm :=
            mul_le_mul_of_nonneg_right ht1 (le_of_lt hapos)
        _ = (f : ℚ) := hfa
    have hlb : (f : ℚ) - tickFrames sr bpm
        < ((framesToTlUnits sr bpm f : ℕ) : ℚ) * tickFrames sr bpm := by
      have hs := mul_lt_mul_of_pos_right ht2 hapos
      rw [hfa] at hs
      have hexp : (((framesToTlUnits sr bpm f : ℕ) : ℚ) + 1)
            * tickFrames sr bpm
          = ((framesToTlUnits sr bpm f : ℕ) : ℚ) * tickFrames sr bpm
            + tickFrames sr bpm := by ring
      linarith [hs, hexp.le]
    constructor
    · have hle : ((tlUnitsToFrames sr bpm (framesToTlUnits sr bpm f) : ℕ) : ℚ)
          ≤ (f : ℚ) := le_trans hr1 hub
      exact_mod_cast hle
    · linarith [hr2, hlb]

/-- Claim C10 (amended), witness: at sample_rate 48000 and bpm 120 — where
one tick is 250 frames — the exact-boundary identity holds at u = 3 ticks
(f = 750 frames) and the general bound holds at f = 1000. -/
theorem tl_roundtrip_spec_witness :
    (tlUnitsToFrames 48000 120 (framesToTlUnits 48000 120 750) = 750) ∧
    (tlUnitsToFrames 48000 120 (framesToTlUnits 48000 120 1000) ≤ 1000 ∧
      (1000 : ℚ)
        - (tlUnitsToFrames 48000 120 (framesToTlUnits 48000 120 1000) : ℚ)
        < tickFrames 48000 120 + 1) :=
  ⟨(tl_roundtrip_spec 48000 120 (by norm_num) (by norm_num)).1 3 750
      (by norm_num [tickFrames, secsPerBeat, beatsPerSec, unitsPerBeat]),
    (tl_roundtrip_spec 48000 120 (by norm_num) (by norm_num)).2 1000⟩

end Chordial
